import Mathlib

/-!
Verification development for the SentinelHubProcessingInput task of
eo-learn (src/io/eolearn/io/processing_api.py).

The Python source is shallowly embedded below.  Conventions used
throughout:

* Python datetimes are modeled by the structure DateTime (civil
  fields at second precision, matching the second-precision handling in
  request_from_date); Python datetime subtraction and comparison are
  modeled through the total-seconds measure to_secs.
* The gap threshold self.time_difference is modeled as a duration in
  whole seconds (an Int), the working interpretation of the parameter
  (the spec calls it minGapSeconds).
* Python floats are modeled by exact rationals.
* The two external collaborators (the WebFeatureService date discovery
  and the SentinelHubDownloadClient) are modeled by explicit inputs:
  the list of discovered dates and the list of decoded downloads.
* Raised Python exceptions are modeled by the Except monad with the
  PyErr error type.
-/

/-- Model of a Python datetime.datetime value at second precision
(microseconds are not modeled; the WFS acquisition dates handled by
get_dates carry whole seconds). -/
structure DateTime where
  year : Nat
  month : Nat
  day : Nat
  hour : Nat
  minute : Nat
  second : Nat
deriving DecidableEq, Inhabited

/-- Gregorian leap-year rule, as in the Python datetime module. -/
def is_leap (y : Nat) : Bool :=
  (y % 4 = 0 && !(y % 100 = 0)) || (y % 400 = 0)

/-- Number of days of a month, as in the Python datetime module. -/
def days_in_month (y : Nat) (m : Nat) : Nat :=
  match m with
  | 1 => 31
  | 2 => if is_leap y then 29 else 28
  | 3 => 31
  | 4 => 30
  | 5 => 31
  | 6 => 30
  | 7 => 31
  | 8 => 31
  | 9 => 30
  | 10 => 31
  | 11 => 30
  | 12 => 31
  | _ => 30

/-- Number of days in year y that precede month m. -/
def days_before_month (y : Nat) (m : Nat) : Nat :=
  ((List.range (m - 1)).map (fun i => days_in_month y (i + 1))).sum

/-- Number of days before January 1 of year y, counting from year 1
(the proleptic Gregorian day-number used by the datetime module). -/
def days_before_year (y : Nat) : Nat :=
  365 * (y - 1) + ((y - 1) / 4 - (y - 1) / 100) + (y - 1) / 400

/-- Day number of a civil date (days since 0001-01-01). -/
def day_number (a : DateTime) : Nat :=
  days_before_year a.year + days_before_month a.year a.month + (a.day - 1)

/-- Total seconds of a datetime since 0001-01-01T00:00:00; Python
datetime comparison and subtraction are modeled through this measure. -/
def to_secs (a : DateTime) : Int :=
  86400 * (day_number a : Int) + 3600 * a.hour + 60 * a.minute + a.second

/-- Validity of a datetime value, as enforced by the constructor of
the Python datetime class (year range 1..9999). -/
def ValidDT (a : DateTime) : Prop :=
  1 ≤ a.year ∧ a.year ≤ 9999 ∧ 1 ≤ a.month ∧ a.month ≤ 12 ∧
  1 ≤ a.day ∧ a.day ≤ days_in_month a.year a.month ∧
  a.hour ≤ 23 ∧ a.minute ≤ 59 ∧ a.second ≤ 59

instance (a : DateTime) : Decidable (ValidDT a) := by
  unfold ValidDT; infer_instance

/-- The largest representable datetime (datetime.max at second
precision); adding one second to it overflows in Python. -/
def dt_max : DateTime := ⟨9999, 12, 31, 23, 59, 59⟩

/-- Model of adding datetime.timedelta(seconds=1) to a datetime, with
carry through the civil fields (line 65 of processing_api.py builds
date_to this way). -/
def add_second (a : DateTime) : DateTime :=
  if a.second < 59 then { a with second := a.second + 1 }
  else if a.minute < 59 then { a with second := 0, minute := a.minute + 1 }
  else if a.hour < 23 then { a with second := 0, minute := 0, hour := a.hour + 1 }
  else if a.day < days_in_month a.year a.month then ⟨a.year, a.month, a.day + 1, 0, 0, 0⟩
  else if a.month < 12 then ⟨a.year, a.month + 1, 1, 0, 0, 0⟩
  else ⟨a.year + 1, 1, 1, 0, 0, 0⟩

/-- Decimal digit pair with zero padding (the 02d rendering used by
datetime.isoformat). -/
def pad2 (n : Nat) : String :=
  String.mk [Nat.digitChar (n / 10 % 10), Nat.digitChar (n % 10)]

/-- Four decimal digits with zero padding (the 04d year rendering used
by datetime.isoformat). -/
def pad4 (n : Nat) : String :=
  String.mk [Nat.digitChar (n / 1000 % 10), Nat.digitChar (n / 100 % 10),
             Nat.digitChar (n / 10 % 10), Nat.digitChar (n % 10)]

/-- Model of datetime.isoformat() for a datetime with zero
microseconds: YYYY-MM-DDTHH:MM:SS. -/
def isoformat (a : DateTime) : String :=
  pad4 a.year ++ "-" ++ pad2 a.month ++ "-" ++ pad2 a.day ++ "T" ++
  pad2 a.hour ++ ":" ++ pad2 a.minute ++ ":" ++ pad2 a.second

/-- Python datetime ordering, via the total-seconds measure. -/
def dt_le (a b : DateTime) : Prop := to_secs a ≤ to_secs b

instance : DecidableRel dt_le := fun a b => Int.decLe (to_secs a) (to_secs b)

instance : IsTotal DateTime dt_le := ⟨fun _ _ => Int.le_total _ _⟩

instance : IsTrans DateTime dt_le := ⟨fun _ _ _ h h2 => Int.le_trans h h2⟩

/-- Python exceptions raised by the task. -/
inductive PyErr where
  /-- A ValueError carrying its message. -/
  | valueError (msg : String)
  /-- An UnboundLocalError: a local variable was read before any
  assignment to it executed. -/
  | unboundLocal (varName : String)
deriving DecidableEq

instance {ε α : Type} [DecidableEq ε] [DecidableEq α] :
    DecidableEq (Except ε α) := fun a b =>
  match a, b with
  | .error x, .error y =>
    decidable_of_iff (x = y)
      ⟨fun h => by rw [h], fun h => by injection h⟩
  | .error _, .ok _ => isFalse (fun h => Except.noConfusion h)
  | .ok _, .error _ => isFalse (fun h => Except.noConfusion h)
  | .ok x, .ok y =>
    decidable_of_iff (x = y)
      ⟨fun h => by rw [h], fun h => by injection h⟩

/-- The time interval argument of execute, a pair of date strings. -/
abbrev TimeInterval := String × String

/-- Rendering of the time interval tuple as Python str.format renders a
tuple of strings (modeled for strings without quotes or escapes). -/
def format_time_interval (ti : TimeInterval) : String :=
  "(\x27" ++ ti.1 ++ "\x27, \x27" ++ ti.2 ++ "\x27)"

/-- The dedup gap test of line 124: d2 - d1 > self.time_difference,
with the datetime subtraction taken in seconds. -/
def gap_gt (t : Int) (d1 d2 : DateTime) : Bool :=
  decide (to_secs d2 - to_secs d1 > t)

/-- Embedding of SentinelHubProcessingInput.get_dates (lines 111-125),
with the external WFS collaborator replaced by its returned candidate
date list wfs_dates.  Mirrors the source: raise ValueError on an empty
candidate set; sort; keep the head plus every d2 of an adjacent sorted
pair (d1, d2) whose gap exceeds the threshold. -/
def get_dates (wfs_dates : List DateTime) (time_difference : Int)
    (time_interval : TimeInterval) : Except PyErr (List DateTime) :=
  if wfs_dates.length = 0 then
    .error (.valueError
      ("No available images for requested time range: " ++ format_time_interval time_interval))
  else
    let dates := wfs_dates.insertionSort dt_le
    .ok (dates.headI ::
      (dates.zip dates.tail).filterMap
        (fun p => if gap_gt time_difference p.1 p.2 then some p.2 else none))

/-- Greedy pass keeping a date when its gap to the previously KEPT
date exceeds the threshold; helper for select_dates_spec_rule. -/
def select_spec_aux (t : Int) : DateTime → List DateTime → List DateTime
  | _, [] => []
  | last, d :: rest =>
    if gap_gt t last d then d :: select_spec_aux t d rest
    else select_spec_aux t last rest

/-- Modelled from the spec: the keep rule of claim C1 taken literally,
keeping a date when its gap to the previous KEPT date exceeds the
threshold (the spec wording: keep it only if the gap since the previous
kept date exceeds minGapSeconds).  Used only to compare against the
source rule embedded in get_dates. -/
def select_dates_spec_rule (sorted_dates : List DateTime) (t : Int) : List DateTime :=
  match sorted_dates with
  | [] => []
  | d0 :: rest => d0 :: select_spec_aux t d0 rest

/-- Recursive form of the adjacent-pair filter of line 124. -/
def kept_tail (t : Int) : DateTime → List DateTime → List DateTime
  | _, [] => []
  | d1, d2 :: rest =>
    if gap_gt t d1 d2 then d2 :: kept_tail t d2 rest else kept_tail t d2 rest

/-- Python int() conversion of a rational: truncation toward zero. -/
def python_int (q : ℚ) : Int :=
  if 0 ≤ q then ⌊q⌋ else -⌊-q⌋

/-- Modelled from the spec: the built-in Python round() on a rational,
rounding halves to even, used only to state what the spec claims the
cloud ceiling computation does. -/
def python_round (q : ℚ) : Int :=
  if q - ⌊q⌋ < 1 / 2 then ⌊q⌋
  else if 1 / 2 < q - ⌊q⌋ then ⌊q⌋ + 1
  else if ⌊q⌋ % 2 = 0 then ⌊q⌋ else ⌊q⌋ + 1

/-- Rounding half to even at 4 decimal digits, the behavior of
np.round(x, 4) at exact arithmetic. -/
def np_round4 (q : ℚ) : ℚ :=
  (python_round (q * 10000) : ℚ) / 10000

/-- The timeRange dict of a dataFilter: from and to bounds. -/
structure TimeRange where
  timeFrom : String
  timeTo : String
deriving DecidableEq, Inhabited

/-- One element of request.input.data: its dataFilter carries the
timeRange and optionally a maxCloudCoverage field; every field not
touched by request_from_date is abstracted into rest. -/
structure DataEntry (α : Type) where
  timeRange : TimeRange
  maxCloudCoverage : Option Int
  rest : α
deriving DecidableEq, Inhabited

/-- A processing API request body: the list request.input.data plus
all remaining fields (bounds, output, evalscript), abstracted into
rest since request_from_date does not touch them. -/
structure Request (α β : Type) where
  dataList : List (DataEntry α)
  rest : β
deriving DecidableEq, Inhabited

/-- The per-entry update of the loop body of request_from_date (lines
69-75): set timeRange.from and timeRange.to to the one-second window of
the date, ISO-rendered with a literal Z suffix, and set maxCloudCoverage
to int(maxcc * 100). -/
def update_data_entry (date : DateTime) (maxcc : ℚ) (e : DataEntry α) : DataEntry α :=
  { e with
    timeRange :=
      { timeFrom := isoformat date ++ "Z"
        timeTo := isoformat (add_second date) ++ "Z" }
    maxCloudCoverage := some (python_int (maxcc * 100)) }

/-- Value-level embedding of SentinelHubProcessingInput.request_from_date
(lines 58-77): deep copy of the request with every data entry updated by
update_data_entry.  The aliasing behavior of the deepcopy is modeled
separately by request_from_date_store. -/
def request_from_date (request : Request α β) (date : DateTime) (maxcc : ℚ) :
    Request α β :=
  { request with dataList := request.dataList.map (update_data_entry date maxcc) }

/-- A store of mutable data-entry cells, modeling the Python heap
objects reachable from request.input.data; data entries are addressed
by index. -/
structure EntryStore (α : Type) where
  cells : List (DataEntry α)
deriving DecidableEq

/-- A request whose data entries are references into an EntryStore,
modeling the aliasing structure of the Python nested dicts. -/
structure RequestRefs (β : Type) where
  dataRefs : List Nat
  rest : β
deriving DecidableEq

/-- Store-level embedding of request_from_date: deepcopy allocates a
fresh cell for every data entry of the request (appended at the end of
the store), and the mutation loop then writes only those fresh cells.
Returns the new store and the returned request value. -/
def request_from_date_store [Inhabited α] (st : EntryStore α) (req : RequestRefs β)
    (date : DateTime) (maxcc : ℚ) : EntryStore α × RequestRefs β :=
  let fresh := req.dataRefs.map
    (fun r => update_data_entry date maxcc (st.cells.getD r default))
  (⟨st.cells ++ fresh⟩,
   { req with dataRefs := List.range' st.cells.length req.dataRefs.length })

/-- Erase the time filters of every data entry of a request; two
requests are equal after erase_time_filters exactly when they agree on
everything but their time-filter fields. -/
def erase_time_filters (r : Request α β) : Request α β :=
  { r with dataList := r.dataList.map (fun e => { e with timeRange := default }) }

/-- Read the data entries of a store-level request out of a store. -/
def read_entries [Inhabited α] (st : EntryStore α) (req : RequestRefs β) :
    List (DataEntry α) :=
  req.dataRefs.map (fun r => st.cells.getD r default)

/-- Read a store-level request back as a request value. -/
def read_request [Inhabited α] (st : EntryStore α) (req : RequestRefs β) :
    Request α β :=
  ⟨read_entries st req, req.rest⟩

/-- Four lowercase hex digits, used for the JSON unicode escapes
emitted by json.dumps with ensure_ascii. -/
def hex4 (n : Nat) : String :=
  String.mk [Nat.digitChar (n / 4096 % 16), Nat.digitChar (n / 256 % 16),
             Nat.digitChar (n / 16 % 16), Nat.digitChar (n % 16)]

/-- Escaping of one character inside a JSON string literal, as done by
the default json.dumps (ensure_ascii true, non-BMP code points emitted
as surrogate pairs). -/
def json_escape_char (c : Char) : String :=
  if c = '\\' then "\\\\"
  else if c = '"' then "\\\""
  else if c = '\n' then "\\n"
  else if c = '\t' then "\\t"
  else if c = '\r' then "\\r"
  else if c.toNat = 8 then "\\b"
  else if c.toNat = 12 then "\\f"
  else if c.toNat < 32 || 126 < c.toNat then
    if c.toNat ≤ 65535 then "\\u" ++ hex4 c.toNat
    else "\\u" ++ hex4 (55296 + (c.toNat - 65536) / 1024) ++
         "\\u" ++ hex4 (56320 + (c.toNat - 65536) % 1024)
  else String.singleton c

/-- Body of a JSON string literal for s. -/
def json_escape (s : String) : String :=
  String.join (s.data.map json_escape_char)

/-- Model of json.dumps on a list of strings with default separators:
a bracketed, comma-space separated list of quoted names (line 109 uses
json.dumps(self.all_bands)). -/
def json_dumps (l : List String) : String :=
  "[" ++ String.intercalate ", " (l.map (fun s => "\"" ++ json_escape s ++ "\"")) ++ "]"

/-- The per-pixel emission list of generate_evalscript (lines 106-107):
a bracketed, comma-space separated list of sample.NAME accesses in band
order. -/
def samples_list (l : List String) : String :=
  "[" ++ String.intercalate ", " (l.map (fun b => "sample." ++ b)) ++ "]"

/-- Literal template text of the evalscript (lines 82-104) before the
first substitution point; the doubled braces of the Python template
render as single braces in the formatted output. -/
def evalscript_pre : String :=
  "\n            function setup() \x7b\n                return \x7b\n                    input: [\x7b\n                        "

/-- Literal template text between the input band list and the output
band count. -/
def evalscript_mid1 : String :=
  "\n                        units: \"DN\"\n                    \x7d],\n                    output: \x7b\n                        id:\"default\",\n                        "

/-- Literal template text between the output band count and the sample
type declaration. -/
def evalscript_mid2 : String :=
  "\n                        sampleType: "

/-- Literal template text between the sample type declaration and the
metadata callback assignment. -/
def evalscript_mid3 : String :=
  "\n                    \x7d\n                \x7d\n            \x7d\n\n            function updateOutputMetadata(scenes, inputMetadata, outputMetadata) \x7b\n                outputMetadata.userData = \x7b "

/-- Literal template text between the metadata callback assignment and
the per-pixel return statement. -/
def evalscript_mid4 : String :=
  " \x7d\n            \x7d\n\n            function evaluatePixel(sample) \x7b\n                "

/-- Literal template text after the per-pixel emission list. -/
def evalscript_end : String :=
  "\n            \x7d\n        "

/-- The norm_factor metadata assignment emitted into the script (line
98); the field is sourced from the inputMetadata.normalizationFactor
of the service. -/
def norm_factor_decl : String :=
  "\"norm_factor\":  inputMetadata.normalizationFactor"

/-- Embedding of SentinelHubProcessingInput.generate_evalscript (lines
79-109): the Python format call on the constant template, expanded into
the explicit concatenation of the literal template chunks with the three
substituted values (the JSON band list, the band count, and the
per-pixel emission list). -/
def generate_evalscript (all_bands : List String) : String :=
  evalscript_pre ++ "bands: " ++ json_dumps all_bands ++ "," ++
  evalscript_mid1 ++ "bands: " ++ toString all_bands.length ++ "," ++
  evalscript_mid2 ++ "SampleType.UINT16" ++
  evalscript_mid3 ++ norm_factor_decl ++
  evalscript_mid4 ++ "return " ++ samples_list all_bands ++
  evalscript_end

/-- The external data source collaborator: its full band list (the
data_source.bands() fallback of line 53) and its API identifier. -/
structure DataSource where
  source_bands : List String
  api_id : String
deriving DecidableEq, Inhabited

/-- A feature key of the output container: a (feature type, name)
pair. -/
abbrev Feature := String × String

/-- The per-instance configuration stored by
SentinelHubProcessingInput.__init__ (lines 44-56).  The cache folder and
thread count only feed the external download client and are not
modeled. -/
structure Config where
  size : Option (Int × Int)
  resolution : Option ℚ
  data_source : DataSource
  maxcc : ℚ
  time_difference : Int
  bands_feature : Option Feature
  bands : List String
  additional_data : List Feature
deriving DecidableEq

/-- Embedding of SentinelHubProcessingInput.__init__ (lines 20-56).
Line 53 parses as (bands or data_source.bands()) if bands_feature else
[]: with no bands_feature the band list is empty whatever bands says; a
falsy bands argument (None or the empty list) falls back to the full
band list of the data source. -/
def mk_task (data_source : DataSource) (size : Option (Int × Int))
    (resolution : Option ℚ) (bands_feature : Option Feature)
    (bands : Option (List String)) (additional_data : Option (List Feature))
    (maxcc : ℚ) (time_difference : Int) : Config :=
  { size := size
    resolution := resolution
    data_source := data_source
    maxcc := maxcc
    time_difference := time_difference
    bands_feature := bands_feature
    bands :=
      if bands_feature.isSome then
        match bands with
        | some (b :: bs) => b :: bs
        | _ => data_source.source_bands
      else []
    additional_data := additional_data.getD [] }

/-- The fixed all-bands ordering of line 56: primary bands followed by
the names of the additional data features. -/
def all_bands (cfg : Config) : List String :=
  cfg.bands ++ cfg.additional_data.map (fun f => f.2)

/-- The bounding box argument: axis-aligned extent plus CRS. -/
structure BBoxT where
  min_x : ℚ
  min_y : ℚ
  max_x : ℚ
  max_y : ℚ
  crs : String
deriving DecidableEq

/-- Embedding of size_from_resolution (lines 127-134): list(bbox) is
[min_x, min_y, max_x, max_y], and the two extents are divided by the
resolution and truncated with int(). -/
def size_from_resolution (bbox : BBoxT) (resolution : ℚ) : Int × Int :=
  (python_int ((bbox.max_x - bbox.min_x) / resolution),
   python_int ((bbox.max_y - bbox.min_y) / resolution))

/-- The size resolution step of execute (lines 143-146): with an
explicit size use it, else derive from the resolution; with neither,
size_x is never assigned and its first read, at line 152 while the
request output is being built, raises UnboundLocalError. -/
def size_xy (cfg : Config) (bbox : BBoxT) : Except PyErr (Int × Int) :=
  match cfg.size with
  | some s => .ok s
  | none =>
    match cfg.resolution with
    | some r => .ok (size_from_resolution bbox r)
    | none => .error (.unboundLocal "size_x")

/-- The request fields outside input.data, as assembled by lines
148-154: bounds (CRS and bbox list), output size, the two response
declarations, and the generated evalscript. -/
structure ReqRest where
  crs : String
  bbox_list : List ℚ
  size_x : Int
  size_y : Int
  responses : List (String × String)
  evalscript : String
deriving DecidableEq

/-- A decoded raster: rows of pixels of channel values (the uint16
samples of the decoded default.tif). -/
abbrev Image := List (List (List Nat))

/-- Extraction of the normalization factor from the userdata.json
payload (line 176): 0 when the payload is falsy or lacks the
norm_factor key. -/
def norm_of (meta : Option (Option ℚ)) : ℚ :=
  match meta with
  | some (some v) => v
  | _ => 0

/-- The decoded download results paired with their normalization
factors (lines 175-176). -/
def decoded (downloads : List (Image × Option (Option ℚ))) : List (Image × ℚ) :=
  downloads.map (fun p => (p.1, norm_of p.2))

/-- The stacked boolean array written for one additional-data feature
(lines 186-189): channel idx of every decoded image, cast to boolean,
with a trailing singleton axis. -/
def mask_array (images : List (Image × ℚ)) (idx : Nat) :
    List (List (List (List Bool))) :=
  images.map (fun p => p.1.map (fun row => row.map
    (fun px => [decide (px.getD idx 0 ≠ 0)])))

/-- The stacked numeric array written for the primary bands (lines
192-195): the leading nb channels of every decoded image, scaled by the
normalization factor of that image and rounded to 4 decimals. -/
def band_array (images : List (Image × ℚ)) (nb : Nat) :
    List (List (List (List ℚ))) :=
  images.map (fun p => p.1.map (fun row => row.map
    (fun px => (px.take nb).map (fun v : Nat => np_round4 ((v : ℚ) * p.2)))))

/-- An array stored in the output container. -/
inductive FeatValue where
  /-- Boolean mask array indexed date, row, column, channel. -/
  | mask (a : List (List (List (List Bool))))
  /-- Numeric band array indexed date, row, column, channel. -/
  | numeric (a : List (List (List (List ℚ))))
deriving DecidableEq

/-- The date-axis length of a stored array. -/
def dim0 : FeatValue → Nat
  | .mask a => a.length
  | .numeric a => a.length

/-- A metadata value of eopatch.meta_info. -/
inductive MetaVal where
  | str (s : String)
  | int (n : Int)
  | num (q : ℚ)
  | interval (t : TimeInterval)
deriving DecidableEq

/-- The output container: timestamps, bbox, the feature arrays keyed by
(type, name), and the metadata mapping.  Feature writes prepend, so a
lookup returns the most recent write, matching dict assignment. -/
structure EOPatch where
  timestamp : List DateTime
  bbox_val : Option BBoxT
  features : List (Feature × FeatValue)
  meta_info : List (String × MetaVal)
deriving DecidableEq

/-- A fresh output container (EOPatch() at line 178). -/
def empty_eopatch : EOPatch := ⟨[], none, [], []⟩

/-- Dictionary lookup among the feature writes: the first match is the
most recent write. -/
def feature_lookup : List (Feature × FeatValue) → Feature → Option FeatValue
  | [], _ => none
  | kv :: rest, k => if kv.1 = k then some kv.2 else feature_lookup rest k

/-- One feature write, eopatch[key] = value. -/
def write_feature (p : EOPatch) (k : Feature) (v : FeatValue) : EOPatch :=
  { p with features := (k, v) :: p.features }

/-- Embedding of SentinelHubProcessingInput.execute (lines 136-204).
The two collaborators are replaced by their returned data: wfs_dates is
the candidate date list of the WFS query and downloads is the decoded
batch returned by the download client for the submitted requests, in
request order.  The first component of the result is the request batch
handed to the download client; on the two error paths the exception
propagates before line 172 executes, so no request is submitted and the
batch is empty.  The bands write of lines 192-195 only happens when the
band list is nonempty, in which case __init__ guarantees bands_feature
is present. -/
def execute (cfg : Config) (eopatch : Option EOPatch) (bbox : BBoxT)
    (time_interval : TimeInterval) (wfs_dates : List DateTime)
    (downloads : List (Image × Option (Option ℚ))) :
    List (Request String ReqRest) × Except PyErr EOPatch :=
  match size_xy cfg bbox with
  | .error e => ([], .error e)
  | .ok (sx, sy) =>
    let template : Request String ReqRest :=
      { dataList := [⟨⟨"", ""⟩, none, cfg.data_source.api_id⟩]
        rest :=
          { crs := bbox.crs
            bbox_list := [bbox.min_x, bbox.min_y, bbox.max_x, bbox.max_y]
            size_x := sx
            size_y := sy
            responses := [("default", "image/tiff"), ("userdata", "application/json")]
            evalscript := generate_evalscript (all_bands cfg) } }
    match get_dates wfs_dates cfg.time_difference time_interval with
    | .error e => ([], .error e)
    | .ok dates =>
      let requests := dates.map (fun d => request_from_date template d cfg.maxcc)
      let images := decoded downloads
      let patch0 := eopatch.getD empty_eopatch
      let patch1 := { patch0 with timestamp := dates, bbox_val := some bbox }
      let patch2 := cfg.additional_data.foldl
        (fun p f =>
          write_feature p f (.mask (mask_array images (List.indexOf f.2 (all_bands cfg)))))
        patch1
      let patch3 :=
        match cfg.bands, cfg.bands_feature with
        | _ :: _, some bf =>
          write_feature patch2 bf (.numeric (band_array images cfg.bands.length))
        | _, _ => patch2
      let patch4 := { patch3 with meta_info :=
        [("service_type", .str "processing"), ("size_x", .int sx),
         ("size_y", .int sy), ("maxcc", .num cfg.maxcc),
         ("time_interval", .interval time_interval),
         ("time_difference", .int cfg.time_difference)] ++ patch3.meta_info }
      (requests, .ok patch4)

/-- Shape predicate for a decoded image: h rows of w pixels of c
channel values. -/
def Shaped3 (img : Image) (h w c : Nat) : Prop :=
  img.length = h ∧ ∀ row ∈ img, row.length = w ∧ ∀ px ∈ row, px.length = c

/-- Shape predicate for a stored 4-D array. -/
def Shaped4 {γ : Type} (a : List (List (List (List γ)))) (n h w c : Nat) : Prop :=
  a.length = n ∧ ∀ x ∈ a, x.length = h ∧ ∀ y ∈ x, y.length = w ∧ ∀ z ∈ y, z.length = c

instance (img : Image) (h w c : Nat) : Decidable (Shaped3 img h w c) := by
  unfold Shaped3; infer_instance

instance {γ : Type} [DecidableEq γ] (a : List (List (List (List γ))))
    (n h w c : Nat) : Decidable (Shaped4 a n h w c) := by
  unfold Shaped4; infer_instance

/-- Element access in a decoded image: row i, column j, channel k. -/
def px3 (img : Image) (i j k : Nat) : Nat :=
  ((img.getD i []).getD j []).getD k 0

/-- Element access in a stored 4-D array. -/
def px4 {γ : Type} [Inhabited γ] (a : List (List (List (List γ))))
    (t i j k : Nat) : γ :=
  (((a.getD t []).getD i []).getD j []).getD k default

/-- Concrete fixture: midnight 2020-01-01. -/
def dt0 : DateTime := ⟨2020, 1, 1, 0, 0, 0⟩

/-- Concrete fixture: ten seconds past dt0. -/
def dt10 : DateTime := ⟨2020, 1, 1, 0, 0, 10⟩

/-- Concrete fixture: twenty seconds past dt0. -/
def dt20 : DateTime := ⟨2020, 1, 1, 0, 0, 20⟩

/-- Concrete fixture: a one-entry request template over trivial
abstracted fields. -/
def req_unit : Request Unit Unit := ⟨[⟨⟨"", ""⟩, none, ()⟩], ()⟩

/-- Concrete fixture: a one-cell entry store. -/
def store0 : EntryStore Unit := ⟨[⟨⟨"", ""⟩, none, ()⟩]⟩

/-- Concrete fixture: a store-level request referencing cell 0. -/
def reqrefs0 : RequestRefs Unit := ⟨[0], ()⟩

/-- Concrete fixture: a data source with two bands. -/
def ds0 : DataSource := ⟨["B04", "B08"], "S2L1C"⟩

/-- Concrete fixture: a bounding box. -/
def bbox0 : BBoxT := ⟨0, 0, 1, 1, "epsg:4326"⟩

/-- Concrete fixture: a time interval. -/
def ti0 : TimeInterval := ("2020-01-01", "2020-01-31")

/-- Concrete fixture: a 1 by 1 image with three channels. -/
def img_a : Image := [[[100, 200, 0]]]

/-- Concrete fixture: a second 1 by 1 image with three channels. -/
def img_b : Image := [[[300, 400, 5]]]

/-- Concrete fixture: a download batch of two decoded results, one with
a normalization factor and one with no userdata payload. -/
def downloads0 : List (Image × Option (Option ℚ)) :=
  [(img_a, some (some (1 / 1000))), (img_b, none)]

/-- Concrete fixture: a fully specified task configuration with a bands
feature and one additional mask feature. -/
def cfg0 : Config :=
  mk_task ds0 (some (1, 1)) none (some ("data", "BANDS")) none
    (some [("mask", "CLM")]) (4 / 10) 15

/-- Concrete fixture: a task configuration with no bands feature. -/
def cfg_nobands : Config :=
  mk_task ds0 (some (1, 1)) none none (some ["B04"]) (some [("mask", "CLM")])
    (4 / 10) 15

/-- Every month length is positive. -/
lemma one_le_days_in_month (y m : Nat) : 1 ≤ days_in_month y m := by
  unfold days_in_month
  split <;> first | omega | (split <;> omega)

/-- Cumulative day counts advance by the month length. -/
lemma days_before_month_succ (y m : Nat) (h1 : 1 ≤ m) :
    days_before_month y (m + 1) = days_before_month y m + days_in_month y m := by
  unfold days_before_month
  have h2 : m + 1 - 1 = (m - 1) + 1 := by omega
  have h3 : m - 1 + 1 = m := by omega
  rw [h2, List.range_succ, List.map_append, List.sum_append]
  simp [h3]

/-- The leap test unfolded to arithmetic. -/
lemma is_leap_iff (y : Nat) :
    is_leap y = true ↔ ((y % 4 = 0 ∧ ¬ y % 100 = 0) ∨ y % 400 = 0) := by
  simp [is_leap, Bool.or_eq_true, Bool.and_eq_true, decide_eq_true_eq,
    Bool.not_eq_true', decide_eq_false_iff_not]

/-- The day count before a year advances by 365 plus the leap day. -/
lemma days_before_year_succ (y : Nat) (h : 1 ≤ y) :
    days_before_year (y + 1) =
      days_before_year y + 365 + (if is_leap y then 1 else 0) := by
  unfold days_before_year
  have h4 : y + 1 - 1 = y := by omega
  rw [h4]
  by_cases hl : is_leap y
  · rw [if_pos hl]
    rcases (is_leap_iff y).mp hl with h5 | h5
    · omega
    · omega
  · rw [if_neg hl]
    have h5 : ¬ ((y % 4 = 0 ∧ ¬ y % 100 = 0) ∨ y % 400 = 0) := fun hc =>
      hl ((is_leap_iff y).mpr hc)
    push_neg at h5
    by_cases h4m : y % 4 = 0
    · have h100 : y % 100 = 0 := h5.1 h4m
      omega
    · omega

/-- The day count before December. -/
lemma days_before_month_twelve (y : Nat) :
    days_before_month y 12 = 334 + (if is_leap y then 1 else 0) := by
  have hr : List.range 11 = [0, 1, 2, 3, 4, 5, 6, 7, 8, 9, 10] := rfl
  unfold days_before_month
  rw [show (12 : Nat) - 1 = 11 from rfl, hr]
  by_cases hl : is_leap y <;> simp [days_in_month, hl]

/-- Adding one second advances the total-seconds measure by exactly
one on every valid datetime: the carry chain of add_second implements
datetime.timedelta(seconds=1) addition. -/
lemma to_secs_add_second (a : DateTime) (hv : ValidDT a) :
    to_secs (add_second a) = to_secs a + 1 := by
  obtain ⟨hy1, hy2, hm1, hm2, hd1, hd2, hh, hmi, hs⟩ := hv
  unfold add_second
  by_cases c1 : a.second < 59
  · simp only [c1, if_true]
    unfold to_secs day_number
    push_cast
    omega
  · rw [if_neg c1]
    by_cases c2 : a.minute < 59
    · simp only [c2, if_true]
      unfold to_secs day_number
      push_cast
      omega
    · rw [if_neg c2]
      by_cases c3 : a.hour < 23
      · simp only [c3, if_true]
        unfold to_secs day_number
        push_cast
        omega
      · rw [if_neg c3]
        by_cases c4 : a.day < days_in_month a.year a.month
        · simp only [c4, if_true]
          unfold to_secs day_number
          push_cast
          omega
        · rw [if_neg c4]
          by_cases c5 : a.month < 12
          · simp only [c5, if_true]
            unfold to_secs day_number
            have hstep := days_before_month_succ a.year a.month hm1
            push_cast
            omega
          · rw [if_neg c5]
            unfold to_secs day_number
            have hm12 : a.month = 12 := by omega
            have hdim : days_in_month a.year 12 = 31 := rfl
            have hb1 : days_before_month (a.year + 1) 1 = 0 := rfl
            have hb12 := days_before_month_twelve a.year
            have hby := days_before_year_succ a.year hy1
            rw [hm12] at hd2 c4 ⊢
            rw [hdim] at hd2 c4
            by_cases hl : is_leap a.year
            · rw [if_pos hl] at hby hb12
              push_cast
              omega
            · rw [if_neg hl] at hby hb12
              push_cast
              omega

/-- Adding one second to a valid datetime other than datetime.max
yields a valid datetime. -/
lemma valid_add_second (a : DateTime) (hv : ValidDT a) (hmax : a ≠ dt_max) :
    ValidDT (add_second a) := by
  obtain ⟨hy1, hy2, hm1, hm2, hd1, hd2, hh, hmi, hs⟩ := hv
  unfold add_second
  by_cases c1 : a.second < 59
  · simp only [c1, if_true]
    unfold ValidDT
    dsimp only
    omega
  · rw [if_neg c1]
    by_cases c2 : a.minute < 59
    · simp only [c2, if_true]
      unfold ValidDT
      dsimp only
      omega
    · rw [if_neg c2]
      by_cases c3 : a.hour < 23
      · simp only [c3, if_true]
        unfold ValidDT
        dsimp only
        omega
      · rw [if_neg c3]
        by_cases c4 : a.day < days_in_month a.year a.month
        · simp only [c4, if_true]
          unfold ValidDT
          dsimp only
          omega
        · rw [if_neg c4]
          by_cases c5 : a.month < 12
          · simp only [c5, if_true]
            unfold ValidDT
            dsimp only
            have hp := one_le_days_in_month a.year (a.month + 1)
            omega
          · rw [if_neg c5]
            unfold ValidDT
            dsimp only
            have hp := one_le_days_in_month (a.year + 1) 1
            have hy : a.year < 9999 := by
              rcases Nat.lt_or_ge a.year 9999 with h9 | h9
              · exact h9
              · exfalso
                apply hmax
                have hm12 : a.month = 12 := by omega
                have hdim : days_in_month a.year 12 = 31 := rfl
                rw [hm12, hdim] at hd2
                have hyv : a.year = 9999 := by omega
                cases a
                simp only [dt_max, DateTime.mk.injEq]
                simp_all
                omega
            omega

/-- The ISO rendering always has 19 characters,
YYYY-MM-DDTHH:MM:SS. -/
lemma isoformat_length (a : DateTime) : (isoformat a).length = 19 := by
  simp [isoformat, pad4, pad2, String.length_append]
  rfl

/-- The zip-with-tail filter of get_dates equals its recursive form. -/
lemma zip_filterMap_eq_kept_tail (t : Int) :
    ∀ (s : List DateTime) (d1 : DateTime),
      ((d1 :: s).zip s).filterMap
          (fun p => if gap_gt t p.1 p.2 then some p.2 else none) =
        kept_tail t d1 s := by
  intro s
  induction s with
  | nil => intro d1; rfl
  | cons d2 rest ih =>
    intro d1
    cases hg : gap_gt t d1 d2 <;>
      simp [List.zip_cons_cons, List.filterMap_cons, hg, ih d2, kept_tail]

/-- In a strictly ascending list, every element after the head is
strictly later than the head. -/
lemma chain_lt_head {P : DateTime → DateTime → Prop}
    (hP : ∀ a b, P a b → to_secs a < to_secs b) :
    ∀ (K : List DateTime) (d : DateTime), List.Chain' P (d :: K) →
      ∀ x ∈ K, to_secs d < to_secs x := by
  intro K
  induction K with
  | nil => intro d _ x hx; cases hx
  | cons k Ktl ih =>
    intro d hch x hx
    have hdk : P d k := List.chain'_cons.mp hch |>.1
    have hch2 : List.Chain' P (k :: Ktl) := List.chain'_cons.mp hch |>.2
    rcases List.mem_cons.mp hx with hx | hx
    · subst hx
      exact hP d x hdk
    · exact lt_trans (hP d k hdk) (ih k hch2 x hx)

/-- The kept tail of a strictly ascending candidate list is a chain in
which consecutive elements are strictly ascending AND separated by more
than the threshold. -/
lemma kept_tail_chain (t : Int) :
    ∀ (s : List DateTime) (d1 : DateTime),
      List.Chain' (fun a b => to_secs a < to_secs b) (d1 :: s) →
      List.Chain' (fun a b => to_secs a < to_secs b ∧ to_secs b - to_secs a > t)
        (d1 :: kept_tail t d1 s) := by
  intro s
  induction s with
  | nil => intro d1 _; simp [kept_tail]
  | cons d2 rest ih =>
    intro d1 hch
    have h12 : to_secs d1 < to_secs d2 := List.chain'_cons.mp hch |>.1
    have hch2 : List.Chain' (fun a b => to_secs a < to_secs b) (d2 :: rest) :=
      List.chain'_cons.mp hch |>.2
    have ih2 := ih d2 hch2
    unfold kept_tail
    by_cases hg : gap_gt t d1 d2
    · rw [if_pos hg]
      refine List.chain'_cons.mpr ⟨⟨h12, ?_⟩, ih2⟩
      exact of_decide_eq_true hg
    · rw [if_neg hg]
      rcases hK : kept_tail t d2 rest with _ | ⟨k, Ktl⟩
      · simp
      · rw [hK] at ih2
        have hd2k : to_secs d2 < to_secs k ∧ to_secs k - to_secs d2 > t :=
          List.chain'_cons.mp ih2 |>.1
        refine List.chain'_cons.mpr ⟨⟨?_, ?_⟩, List.chain'_cons.mp ih2 |>.2⟩
        · exact lt_trans h12 hd2k.1
        · omega

/-- With adjacent gaps all above the threshold, the kept tail keeps
everything. -/
lemma kept_tail_all (t : Int) :
    ∀ (s : List DateTime) (d1 : DateTime),
      List.Chain' (fun a b => to_secs b - to_secs a > t) (d1 :: s) →
      kept_tail t d1 s = s := by
  intro s
  induction s with
  | nil => intro d1 _; rfl
  | cons d2 rest ih =>
    intro d1 hch
    have h12 : to_secs d2 - to_secs d1 > t := List.chain'_cons.mp hch |>.1
    have hch2 := List.chain'_cons.mp hch |>.2
    have hg : gap_gt t d1 d2 = true := decide_eq_true h12
    unfold kept_tail
    rw [hg]
    simp [ih d2 hch2]

/-- Elements of the kept tail come after the leading date. -/
lemma kept_tail_head_lt (t : Int) (s : List DateTime) (d1 : DateTime)
    (hch : List.Chain' (fun a b => to_secs a < to_secs b) (d1 :: s)) :
    ∀ x ∈ kept_tail t d1 s, to_secs d1 < to_secs x := by
  have hc := kept_tail_chain t s d1 hch
  exact chain_lt_head (fun a b h => h.1) _ _ hc

/-- Membership in the kept tail of a strictly ascending candidate list
is decided exactly by the gap to the immediately preceding candidate. -/
lemma mem_kept_tail_iff (t : Int) :
    ∀ (s : List DateTime) (d1 : DateTime),
      List.Chain' (fun a b => to_secs a < to_secs b) (d1 :: s) →
      ∀ p ∈ (d1 :: s).zip s, (p.2 ∈ kept_tail t d1 s ↔ gap_gt t p.1 p.2 = true) := by
  intro s
  induction s with
  | nil => intro d1 _ p hp; cases hp
  | cons d2 rest ih =>
    intro d1 hch p hp
    have h12 : to_secs d1 < to_secs d2 := List.chain'_cons.mp hch |>.1
    have hch2 : List.Chain' (fun a b => to_secs a < to_secs b) (d2 :: rest) :=
      List.chain'_cons.mp hch |>.2
    rcases List.mem_cons.mp hp with hp1 | hp2
    · subst hp1
      unfold kept_tail
      cases hg : gap_gt t d1 d2
      · simp only [Bool.false_eq_true, if_false, iff_false]
        intro hmem
        exact absurd (kept_tail_head_lt t rest d2 hch2 d2 hmem) (lt_irrefl _)
      · simp
    · have hb_rest : p.2 ∈ rest := (List.of_mem_zip hp2).2
      have hb_gt : to_secs d2 < to_secs p.2 :=
        chain_lt_head (fun a b h => h) rest d2 hch2 p.2 hb_rest
      unfold kept_tail
      have hiff := ih d2 hch2 p hp2
      cases hg : gap_gt t d1 d2
      · simp only [Bool.false_eq_true, if_false]
        exact hiff
      · rw [if_pos rfl]
        rw [List.mem_cons]
        constructor
        · intro hc
          rcases hc with hc | hc
          · rw [hc] at hb_gt
            exact absurd hb_gt (lt_irrefl _)
          · exact hiff.mp hc
        · intro hc
          exact Or.inr (hiff.mpr hc)

/-- Sorting a duplicate-free candidate list gives a strictly ascending
chain. -/
lemma sorted_strict_chain (wfs : List DateTime)
    (hnd : (wfs.map to_secs).Nodup) :
    List.Chain' (fun a b => to_secs a < to_secs b) (wfs.insertionSort dt_le) := by
  have hs : List.Sorted dt_le (wfs.insertionSort dt_le) :=
    List.sorted_insertionSort dt_le wfs
  have hperm : List.Perm (wfs.insertionSort dt_le) wfs :=
    List.perm_insertionSort dt_le wfs
  have hnd2 : ((wfs.insertionSort dt_le).map to_secs).Nodup :=
    ((hperm.map to_secs).nodup_iff).mpr hnd
  have hp2 : (wfs.insertionSort dt_le).Pairwise
      (fun a b => to_secs a ≠ to_secs b) := List.pairwise_map.mp hnd2
  have hp3 : (wfs.insertionSort dt_le).Pairwise
      (fun a b => to_secs a < to_secs b) :=
    (hs.and hp2).imp (fun h => lt_of_le_of_ne h.1 h.2)
  exact hp3.chain'

/-- Sorting a nonempty list gives a nonempty list. -/
lemma insertionSort_ne_nil (wfs : List DateTime) (hne : wfs ≠ []) :
    wfs.insertionSort dt_le ≠ [] := by
  intro h0
  apply hne
  have hperm := List.perm_insertionSort dt_le wfs
  rw [h0] at hperm
  exact (hperm.nil_eq).symm

/-- Successful form of get_dates on a nonempty candidate list. -/
lemma get_dates_ok_form (wfs : List DateTime) (t : Int) (ti : TimeInterval)
    (hne : wfs ≠ []) :
    get_dates wfs t ti =
      .ok ((wfs.insertionSort dt_le).headI ::
        kept_tail t (wfs.insertionSort dt_le).headI
          (wfs.insertionSort dt_le).tail) := by
  unfold get_dates
  rw [if_neg (by simpa [List.length_eq_zero] using hne)]
  obtain ⟨d0, s, hs⟩ :=
    List.exists_cons_of_ne_nil (insertionSort_ne_nil wfs hne)
  rw [hs]
  simp only [List.headI_cons, List.tail_cons]
  rw [zip_filterMap_eq_kept_tail t s d0]

/-- Claim C1, counterexample: with discovered dates at seconds 0, 10
and 20 of 2020-01-01 and a 15 second threshold, the gap from the
20-second date to the previous KEPT date (the first date) is 20 > 15,
so the rule stated by the claim keeps it, yet get_dates drops it: the
code compares each date to the immediately preceding DISCOVERED date
(gaps 10 and 10), not to the previous kept date. -/
theorem date_selection_previous_kept_counterexample :
    get_dates [dt0, dt10, dt20] 15 ti0 = .ok [dt0] ∧
    select_dates_spec_rule [dt0, dt10, dt20] 15 = [dt0, dt20] ∧
    ([dt0] : List DateTime) ≠ [dt0, dt20] := by
  refine ⟨?_, ?_, ?_⟩ <;> decide

/-- Claim C1 (amended): for every nonempty duplicate-free candidate
set, get_dates keeps the earliest date unconditionally, keeps a later
date if and only if its gap to the immediately preceding DISCOVERED
date (in sorted order) strictly exceeds the threshold, and its output
is strictly ascending with every kept element more than the threshold
after its kept predecessor. -/
theorem date_selection_adjacent_rule
    (wfs : List DateTime) (t : Int) (ti : TimeInterval)
    (hne : wfs ≠ []) (hnd : (wfs.map to_secs).Nodup) :
    ∃ out, get_dates wfs t ti = .ok out ∧
      out.headI = (wfs.insertionSort dt_le).headI ∧
      (∀ x ∈ wfs, to_secs out.headI ≤ to_secs x) ∧
      (∀ p ∈ (wfs.insertionSort dt_le).zip (wfs.insertionSort dt_le).tail,
          (p.2 ∈ out ↔ to_secs p.2 - to_secs p.1 > t)) ∧
      List.Chain' (fun a b => to_secs a < to_secs b ∧ to_secs b - to_secs a > t)
        out := by
  obtain ⟨d0, s, hs⟩ :=
    List.exists_cons_of_ne_nil (insertionSort_ne_nil wfs hne)
  have hch : List.Chain' (fun a b => to_secs a < to_secs b) (d0 :: s) := by
    have := sorted_strict_chain wfs hnd
    rwa [hs] at this
  refine ⟨d0 :: kept_tail t d0 s, ?_, ?_, ?_, ?_, ?_⟩
  · rw [get_dates_ok_form wfs t ti hne, hs]
    simp only [List.headI_cons, List.tail_cons]
  · rw [hs]
    simp only [List.headI_cons]
  · intro x hx
    have hx2 : x ∈ wfs.insertionSort dt_le :=
      ((List.perm_insertionSort dt_le wfs).mem_iff).mpr hx
    rw [hs] at hx2
    simp only [List.headI_cons]
    rcases List.mem_cons.mp hx2 with hx3 | hx3
    · rw [hx3]
    · exact le_of_lt (chain_lt_head (fun a b h => h) s d0 hch x hx3)
  · intro p hp
    rw [hs] at hp
    simp only [List.tail_cons] at hp
    have hiff := mem_kept_tail_iff t s d0 hch p hp
    have hp2s : p.2 ∈ s := (List.of_mem_zip hp).2
    have hp2gt : to_secs d0 < to_secs p.2 :=
      chain_lt_head (fun a b h => h) s d0 hch p.2 hp2s
    rw [List.mem_cons]
    constructor
    · intro hc
      rcases hc with hc | hc
      · rw [hc] at hp2gt
        exact absurd hp2gt (lt_irrefl _)
      · exact of_decide_eq_true (hiff.mp hc)
    · intro hc
      exact Or.inr (hiff.mpr (decide_eq_true hc))
  · exact kept_tail_chain t s d0 hch

/-- Witness for the amended claim C1 at an unsorted concrete input. -/
theorem date_selection_adjacent_rule_witness :
    ∃ out, get_dates [dt10, dt0, dt20] 0 ti0 = .ok out ∧
      out.headI = ([dt10, dt0, dt20].insertionSort dt_le).headI ∧
      (∀ x ∈ [dt10, dt0, dt20], to_secs out.headI ≤ to_secs x) ∧
      (∀ p ∈ ([dt10, dt0, dt20].insertionSort dt_le).zip
          ([dt10, dt0, dt20].insertionSort dt_le).tail,
          (p.2 ∈ out ↔ to_secs p.2 - to_secs p.1 > 0)) ∧
      List.Chain' (fun a b => to_secs a < to_secs b ∧ to_secs b - to_secs a > 0)
        out :=
  date_selection_adjacent_rule [dt10, dt0, dt20] 0 ti0 (by decide) (by decide)

/-- Claim C2: a non-positive gap threshold keeps every discovered date
of a duplicate-free candidate set, in sorted order. -/
theorem nonpositive_threshold_keeps_all
    (wfs : List DateTime) (t : Int) (ti : TimeInterval)
    (hne : wfs ≠ []) (hnd : (wfs.map to_secs).Nodup) (ht : t ≤ 0) :
    get_dates wfs t ti = .ok (wfs.insertionSort dt_le) := by
  rw [get_dates_ok_form wfs t ti hne]
  obtain ⟨d0, s, hs⟩ :=
    List.exists_cons_of_ne_nil (insertionSort_ne_nil wfs hne)
  have hch : List.Chain' (fun a b => to_secs a < to_secs b) (d0 :: s) := by
    have := sorted_strict_chain wfs hnd
    rwa [hs] at this
  rw [hs]
  simp only [List.headI_cons, List.tail_cons]
  congr 1
  rw [kept_tail_all t s d0 (hch.imp (fun h => by omega))]

/-- Witness for claim C2. -/
theorem nonpositive_threshold_keeps_all_witness :
    get_dates [dt10, dt0, dt20] (-1) ti0 =
      .ok ([dt10, dt0, dt20].insertionSort dt_le) :=
  nonpositive_threshold_keeps_all [dt10, dt0, dt20] (-1) ti0
    (by decide) (by decide) (by decide)

/-- With a size or a resolution configured, the dimension step
succeeds. -/
lemma size_xy_ok (cfg : Config) (bbox : BBoxT)
    (hsz : cfg.size ≠ none ∨ cfg.resolution ≠ none) :
    ∃ s, size_xy cfg bbox = .ok s := by
  unfold size_xy
  rcases hs : cfg.size with _ | s
  · rcases hr : cfg.resolution with _ | r
    · rcases hsz with h | h
      · exact absurd hs h
      · exact absurd hr h
    · exact ⟨size_from_resolution bbox r, rfl⟩
  · exact ⟨s, rfl⟩

/-- Claim C3: when date discovery returns no candidates, execute
raises the distinct no-data ValueError whose message carries the
offending time window, and hands no request to the download client;
the result does not depend on the download collaborator at all. -/
theorem no_data_error_and_no_download
    (cfg : Config) (eop : Option EOPatch) (bbox : BBoxT) (ti : TimeInterval)
    (downloads : List (Image × Option (Option ℚ)))
    (hsz : cfg.size ≠ none ∨ cfg.resolution ≠ none) :
    execute cfg eop bbox ti [] downloads =
      ([], .error (.valueError
        ("No available images for requested time range: " ++
          format_time_interval ti))) := by
  obtain ⟨⟨sx, sy⟩, hxy⟩ := size_xy_ok cfg bbox hsz
  unfold execute
  rw [hxy]
  rfl

/-- Witness for claim C3. -/
theorem no_data_error_and_no_download_witness :
    execute cfg0 none bbox0 ti0 [] downloads0 =
      ([], .error (.valueError
        ("No available images for requested time range: " ++
          format_time_interval ti0))) :=
  no_data_error_and_no_download cfg0 none bbox0 ti0 downloads0
    (Or.inl (by decide))

/-- Claim C4 (code bug): with neither size nor resolution, neither
branch of lines 143-146 assigns size_x, and its first read at line 152,
while the request output is being built, raises UnboundLocalError; the
failure does occur before any network call (the result is independent
of both collaborators), but it is an unbound-variable crash, not a
deliberate configuration-validation error. -/
theorem missing_size_unbound_local
    (cfg : Config) (eop : Option EOPatch) (bbox : BBoxT) (ti : TimeInterval)
    (wfs : List DateTime) (downloads : List (Image × Option (Option ℚ)))
    (h1 : cfg.size = none) (h2 : cfg.resolution = none) :
    execute cfg eop bbox ti wfs downloads =
      ([], .error (.unboundLocal "size_x")) := by
  unfold execute size_xy
  rw [h1, h2]

/-- Witness for claim C4. -/
theorem missing_size_unbound_local_witness :
    execute (mk_task ds0 none none none none none 1 15) none bbox0 ti0
        [dt0] downloads0 =
      ([], .error (.unboundLocal "size_x")) :=
  missing_size_unbound_local _ none bbox0 ti0 [dt0] downloads0 rfl rfl

/-- Reading every index of a list with getD reproduces the list. -/
lemma map_getD_range {γ : Type} [Inhabited γ] (l : List γ) :
    (List.range l.length).map (fun i => l.getD i default) = l := by
  induction l with
  | nil => rfl
  | cons a tl ih =>
    rw [List.length_cons, List.range_succ_eq_map]
    simp only [List.map_cons, List.map_map, Function.comp_def,
      Nat.succ_eq_add_one, List.getD_cons_zero, List.getD_cons_succ]
    rw [ih]

/-- Reading the freshly appended cells of a store returns exactly the
appended list. -/
lemma map_getD_range_append {γ : Type} [Inhabited γ] (cells fresh : List γ) :
    (List.range' cells.length fresh.length).map
        (fun r => (cells ++ fresh).getD r default) = fresh := by
  rw [List.range'_eq_map_range, List.map_map]
  have h1 : ∀ i ∈ List.range fresh.length,
      ((cells ++ fresh).getD (cells.length + i) default) =
        fresh.getD i default := by
    intro i hi
    rw [List.getD_append_right _ _ _ _ (Nat.le_add_right _ _)]
    simp
  rw [List.map_congr_left (by intro i hi; exact h1 i hi)]
  exact map_getD_range fresh

/-- Claim C5: per-date specialization is pure with respect to the
shared template.  In the store model the deepcopy allocates fresh cells
only: (1) no existing store cell changes; (2) the original template,
read back after the call, is unchanged; (3) the returned request agrees
with the pure value function request_from_date on the original
template; (4) the outputs for two different dates agree after erasing
their time filters, differing only in those fields. -/
theorem template_specialization_pure {α β : Type} [Inhabited α]
    (st : EntryStore α) (req : RequestRefs β) (d1 d2 : DateTime) (mcc : ℚ)
    (hvalid : ∀ r ∈ req.dataRefs, r < st.cells.length) :
    (∀ k, k < st.cells.length →
      (request_from_date_store st req d1 mcc).1.cells.getD k default =
        st.cells.getD k default) ∧
    read_request (request_from_date_store st req d1 mcc).1 req =
      read_request st req ∧
    read_request (request_from_date_store st req d1 mcc).1
        (request_from_date_store st req d1 mcc).2 =
      request_from_date (read_request st req) d1 mcc ∧
    erase_time_filters
        (read_request (request_from_date_store st req d1 mcc).1
          (request_from_date_store st req d1 mcc).2) =
      erase_time_filters
        (read_request (request_from_date_store st req d2 mcc).1
          (request_from_date_store st req d2 mcc).2) := by
  have hframe : ∀ (d : DateTime) (k : Nat), k < st.cells.length →
      (request_from_date_store st req d mcc).1.cells.getD k default =
        st.cells.getD k default := by
    intro d k hk
    unfold request_from_date_store
    exact List.getD_append _ _ _ _ hk
  have hread : ∀ d : DateTime,
      read_request (request_from_date_store st req d mcc).1
          (request_from_date_store st req d mcc).2 =
        request_from_date (read_request st req) d mcc := by
    intro d
    unfold read_request read_entries request_from_date_store request_from_date
    simp only [List.map_map]
    rw [show req.dataRefs.length =
        (req.dataRefs.map
          (fun r => update_data_entry d mcc (st.cells.getD r default))).length
      from (List.length_map _ _).symm]
    rw [map_getD_range_append]
    simp [Function.comp_def]
  refine ⟨hframe d1, ?_, hread d1, ?_⟩
  · unfold read_request read_entries
    congr 1
    apply List.map_congr_left
    intro r hr
    exact hframe d1 r (hvalid r hr)
  · rw [hread d1, hread d2]
    unfold erase_time_filters request_from_date
    simp only [List.map_map]
    rfl

/-- Witness for claim C5 on a concrete one-entry store. -/
theorem template_specialization_pure_witness :
    (∀ k, k < store0.cells.length →
      (request_from_date_store store0 reqrefs0 dt0 (1/2)).1.cells.getD k default =
        store0.cells.getD k default) ∧
    read_request (request_from_date_store store0 reqrefs0 dt0 (1/2)).1 reqrefs0 =
      read_request store0 reqrefs0 ∧
    read_request (request_from_date_store store0 reqrefs0 dt0 (1/2)).1
        (request_from_date_store store0 reqrefs0 dt0 (1/2)).2 =
      request_from_date (read_request store0 reqrefs0) dt0 (1/2) ∧
    erase_time_filters
        (read_request (request_from_date_store store0 reqrefs0 dt0 (1/2)).1
          (request_from_date_store store0 reqrefs0 dt0 (1/2)).2) =
      erase_time_filters
        (read_request (request_from_date_store store0 reqrefs0 dt10 (1/2)).1
          (request_from_date_store store0 reqrefs0 dt10 (1/2)).2) :=
  template_specialization_pure store0 reqrefs0 dt0 dt10 (1/2) (by decide)

/-- Claim C6, counterexample: with cloud ceiling 0.375 (exactly
representable in binary floating point), the claimed round(0.375 * 100)
is 38, but line 75 computes int(0.375 * 100) = 37: the code truncates,
it does not round. -/
theorem cloud_ceiling_truncation_counterexample :
    (request_from_date req_unit dt0 (3 / 8)).dataList.map
        (fun e => e.maxCloudCoverage) = [some 37] ∧
    python_round ((3 / 8 : ℚ) * 100) = 38 ∧
    some (37 : Int) ≠ some (python_round ((3 / 8 : ℚ) * 100)) := by
  refine ⟨?_, ?_, ?_⟩
  · show [some (python_int ((3 / 8 : ℚ) * 100))] = [some 37]
    norm_num [python_int]
  · norm_num [python_round]
  · norm_num [python_round]

/-- Claim C6 (amended): every data entry of the specialized request has
its time filter set to the one-second window of the date, both bounds
ISO-rendered at second precision (19 characters) with a literal Z
suffix, the upper bound being exactly one second after the date; the
cloud ceiling is int(cloudCeiling * 100), a truncation toward zero, not
the claimed rounding. -/
theorem time_window_fields {α β : Type} (req : Request α β)
    (date : DateTime) (mcc : ℚ) (hv : ValidDT date) (hmax : date ≠ dt_max) :
    ∀ e ∈ (request_from_date req date mcc).dataList,
      e.maxCloudCoverage = some (python_int (mcc * 100)) ∧
      e.timeRange.timeFrom = isoformat date ++ "Z" ∧
      e.timeRange.timeTo = isoformat (add_second date) ++ "Z" ∧
      to_secs (add_second date) = to_secs date + 1 ∧
      ValidDT (add_second date) ∧
      (isoformat date).length = 19 ∧
      (isoformat (add_second date)).length = 19 := by
  intro e he
  unfold request_from_date at he
  simp only [List.mem_map] at he
  obtain ⟨e0, _, he0⟩ := he
  subst he0
  unfold update_data_entry
  refine ⟨rfl, rfl, rfl, to_secs_add_second date hv,
    valid_add_second date hv hmax, isoformat_length date,
    isoformat_length (add_second date)⟩

/-- Witness for the amended claim C6, at the single data entry of the
concrete request. -/
theorem time_window_fields_witness :
    ((request_from_date req_unit dt20 (3 / 8)).dataList.headI).maxCloudCoverage
        = some (python_int ((3 / 8) * 100)) ∧
    ((request_from_date req_unit dt20
      (3 / 8)).dataList.headI).timeRange.timeFrom = isoformat dt20 ++ "Z" ∧
    ((request_from_date req_unit dt20
      (3 / 8)).dataList.headI).timeRange.timeTo =
        isoformat (add_second dt20) ++ "Z" ∧
    to_secs (add_second dt20) = to_secs dt20 + 1 ∧
    ValidDT (add_second dt20) ∧
    (isoformat dt20).length = 19 ∧
    (isoformat (add_second dt20)).length = 19 :=
  time_window_fields req_unit dt20 (3 / 8) (by decide) (by decide)
    ((request_from_date req_unit dt20 (3 / 8)).dataList.headI)
    (by exact List.mem_cons_self _ _)

/-- Characters of an appended string. -/
lemma string_data_append (a b : String) : (a ++ b).data = a.data ++ b.data := by
  cases a
  cases b
  rfl

/-- The middle part of a three-part concatenation is an infix. -/
lemma string_infix_parts (a x b : String) :
    List.IsInfix x.data (a ++ x ++ b).data :=
  ⟨a.data, b.data, by simp [string_data_append]⟩

/-- Claim C7: for every band plan, the generated evalscript declares an
input band list that is exactly the JSON encoding of the all-bands
names (primary bands followed by mask names, in order), an output
channel count equal to the number of those bands, the unsigned 16-bit
sample type, the norm_factor metadata field sourced from the service
normalizationFactor, and a per-pixel emission list over the same
all-bands names in the same order. -/
theorem evalscript_structure (cfg : Config) :
    List.IsInfix ("bands: " ++ json_dumps (all_bands cfg) ++ ",").data
      (generate_evalscript (all_bands cfg)).data ∧
    List.IsInfix ("bands: " ++ toString (all_bands cfg).length ++ ",").data
      (generate_evalscript (all_bands cfg)).data ∧
    List.IsInfix ("sampleType: SampleType.UINT16").data
      (generate_evalscript (all_bands cfg)).data ∧
    List.IsInfix norm_factor_decl.data
      (generate_evalscript (all_bands cfg)).data ∧
    List.IsInfix ("return " ++ samples_list (all_bands cfg)).data
      (generate_evalscript (all_bands cfg)).data ∧
    all_bands cfg = cfg.bands ++ cfg.additional_data.map (fun f => f.2) ∧
    json_dumps (all_bands cfg) =
      "[" ++ String.intercalate ", "
        ((cfg.bands ++ cfg.additional_data.map (fun f => f.2)).map
          (fun s => "\"" ++ json_escape s ++ "\"")) ++ "]" ∧
    samples_list (all_bands cfg) =
      "[" ++ String.intercalate ", "
        ((cfg.bands ++ cfg.additional_data.map (fun f => f.2)).map
          (fun b => "sample." ++ b)) ++ "]" := by
  refine ⟨?_, ?_, ?_, ?_, ?_, rfl, rfl, rfl⟩
  · have e1 : generate_evalscript (all_bands cfg) =
        evalscript_pre ++ ("bands: " ++ json_dumps (all_bands cfg) ++ ",") ++
        (evalscript_mid1 ++ "bands: " ++ toString (all_bands cfg).length ++ "," ++
         evalscript_mid2 ++ "SampleType.UINT16" ++ evalscript_mid3 ++
         norm_factor_decl ++ evalscript_mid4 ++ "return " ++
         samples_list (all_bands cfg) ++ evalscript_end) := by
      simp [generate_evalscript, String.append_assoc]
    rw [e1]
    exact string_infix_parts _ _ _
  · have e2 : generate_evalscript (all_bands cfg) =
        (evalscript_pre ++ "bands: " ++ json_dumps (all_bands cfg) ++ "," ++
         evalscript_mid1) ++
        ("bands: " ++ toString (all_bands cfg).length ++ ",") ++
        (evalscript_mid2 ++ "SampleType.UINT16" ++ evalscript_mid3 ++
         norm_factor_decl ++ evalscript_mid4 ++ "return " ++
         samples_list (all_bands cfg) ++ evalscript_end) := by
      simp [generate_evalscript, String.append_assoc]
    rw [e2]
    exact string_infix_parts _ _ _
  · have e3 : generate_evalscript (all_bands cfg) =
        (evalscript_pre ++ "bands: " ++ json_dumps (all_bands cfg) ++ "," ++
         evalscript_mid1 ++ "bands: " ++ toString (all_bands cfg).length ++ "," ++
         "\n                        ") ++
        ("sampleType: SampleType.UINT16") ++
        (evalscript_mid3 ++ norm_factor_decl ++ evalscript_mid4 ++ "return " ++
         samples_list (all_bands cfg) ++ evalscript_end) := by
      simp [generate_evalscript, evalscript_mid2, String.append_assoc]
    rw [e3]
    exact string_infix_parts _ _ _
  · have e4 : generate_evalscript (all_bands cfg) =
        (evalscript_pre ++ "bands: " ++ json_dumps (all_bands cfg) ++ "," ++
         evalscript_mid1 ++ "bands: " ++ toString (all_bands cfg).length ++ "," ++
         evalscript_mid2 ++ "SampleType.UINT16" ++ evalscript_mid3) ++
        norm_factor_decl ++
        (evalscript_mid4 ++ "return " ++ samples_list (all_bands cfg) ++
         evalscript_end) := by
      simp [generate_evalscript, String.append_assoc]
    rw [e4]
    exact string_infix_parts _ _ _
  · have e5 : generate_evalscript (all_bands cfg) =
        (evalscript_pre ++ "bands: " ++ json_dumps (all_bands cfg) ++ "," ++
         evalscript_mid1 ++ "bands: " ++ toString (all_bands cfg).length ++ "," ++
         evalscript_mid2 ++ "SampleType.UINT16" ++ evalscript_mid3 ++
         norm_factor_decl ++ evalscript_mid4) ++
        ("return " ++ samples_list (all_bands cfg)) ++
        evalscript_end := by
      simp [generate_evalscript, String.append_assoc]
    rw [e5]
    exact string_infix_parts _ _ _

/-- Features after a fold of writes: the reversed write list followed
by the previous features. -/
lemma foldl_write_features (l : List Feature) (g : Feature → FeatValue)
    (p : EOPatch) :
    (l.foldl (fun p2 f => write_feature p2 f (g f)) p).features =
      (l.map (fun f => (f, g f))).reverse ++ p.features := by
  induction l generalizing p with
  | nil => simp
  | cons a tl ih =>
    simp only [List.foldl_cons, List.map_cons, List.reverse_cons]
    rw [ih]
    simp [write_feature, List.append_assoc]

/-- Feature writes do not touch the timestamp field. -/
lemma foldl_write_timestamp (l : List Feature) (g : Feature → FeatValue)
    (p : EOPatch) :
    (l.foldl (fun p2 f => write_feature p2 f (g f)) p).timestamp =
      p.timestamp := by
  induction l generalizing p with
  | nil => rfl
  | cons a tl ih =>
    simp only [List.foldl_cons]
    rw [ih]
    rfl

/-- Success form of execute: with a configured size and a nonempty
candidate list, the submitted request batch is one specialized request
per kept date, and the returned container carries the kept dates as
timestamps and the mask and band writes in front of the prior
features. -/
lemma execute_ok_form (cfg : Config) (eop : Option EOPatch) (bbox : BBoxT)
    (ti : TimeInterval) (wfs : List DateTime)
    (downloads : List (Image × Option (Option ℚ)))
    (dates : List DateTime) (sx sy : Int)
    (hsz : size_xy cfg bbox = .ok (sx, sy))
    (hdates : get_dates wfs cfg.time_difference ti = .ok dates) :
    ∃ patch, (execute cfg eop bbox ti wfs downloads).2 = .ok patch ∧
      patch.timestamp = dates ∧
      patch.features =
        (match cfg.bands, cfg.bands_feature with
         | _ :: _, some bf =>
           [(bf, FeatValue.numeric (band_array (decoded downloads)
              cfg.bands.length))]
         | _, _ => []) ++
        ((cfg.additional_data.map
          (fun f => (f, FeatValue.mask (mask_array (decoded downloads)
            (List.indexOf f.2 (all_bands cfg)))))).reverse ++
         (eop.getD empty_eopatch).features) := by
  unfold execute
  rw [hsz, hdates]
  refine ⟨_, rfl, ?_, ?_⟩
  · rcases hb : cfg.bands with _ | ⟨b, bs⟩ <;>
      rcases hbf : cfg.bands_feature with _ | bf <;>
      simp only [hb, hbf] <;>
      (try simp only [show ∀ (p : EOPatch) (k : Feature) (v : FeatValue),
        (write_feature p k v).timestamp = p.timestamp from fun _ _ _ => rfl]) <;>
      rw [foldl_write_timestamp]
  · have hwf : ∀ (p : EOPatch) (k : Feature) (v : FeatValue),
        (write_feature p k v).features = (k, v) :: p.features := fun _ _ _ => rfl
    rcases hb : cfg.bands with _ | ⟨b, bs⟩ <;>
      rcases hbf : cfg.bands_feature with _ | bf <;>
      simp only [hb, hbf] <;>
      (try simp only [hwf]) <;>
      rw [foldl_write_features cfg.additional_data
        (fun f => FeatValue.mask (mask_array (decoded downloads)
          (List.indexOf f.2 (all_bands cfg))))] <;>
      simp

/-- Lookup skips an entry with a different key. -/
lemma feature_lookup_cons_ne (kv : Feature × FeatValue)
    (rest : List (Feature × FeatValue)) (k : Feature) (h : kv.1 ≠ k) :
    feature_lookup (kv :: rest) k = feature_lookup rest k := by
  simp [feature_lookup, h]

/-- Lookup in a write block whose values are a function of their keys
returns that function of the key. -/
lemma feature_lookup_block (L rest : List (Feature × FeatValue)) (k : Feature)
    (g : Feature → FeatValue)
    (hall : ∀ kv ∈ L, kv.2 = g kv.1) (hk : k ∈ L.map Prod.fst) :
    feature_lookup (L ++ rest) k = some (g k) := by
  induction L with
  | nil => cases hk
  | cons kv L ih =>
    by_cases hkv : kv.1 = k
    · have hv : kv.2 = g kv.1 := hall kv (List.mem_cons_self kv L)
      rw [List.cons_append]
      unfold feature_lookup
      rw [if_pos hkv, hv, hkv]
    · rw [List.cons_append, feature_lookup_cons_ne kv (L ++ rest) k hkv]
      refine ih (fun kv2 h2 => hall kv2 (List.mem_cons_of_mem kv h2)) ?_
      simp only [List.map_cons, List.mem_cons] at hk
      rcases hk with hk | hk
      · exact absurd hk.symm hkv
      · exact hk

/-- getD through a map, inside the length. -/
lemma getD_map_of_lt {γ δ : Type} (f : γ → δ) (l : List γ) (i : Nat)
    (d : δ) (d0 : γ) (h : i < l.length) :
    (l.map f).getD i d = f (l.getD i d0) := by
  induction l generalizing i with
  | nil => simp at h
  | cons a tl ih =>
    cases i
    · simp
    · simp only [List.map_cons, List.getD_cons_succ]
      exact ih _ (by simpa using h)

/-- getD through take, inside the prefix. -/
lemma getD_take_of_lt {γ : Type} (l : List γ) (n i : Nat) (d : γ)
    (h : i < n) :
    (l.take n).getD i d = l.getD i d := by
  induction l generalizing n i with
  | nil => simp
  | cons a tl ih =>
    cases n
    · omega
    · cases i
      · simp
      · simp only [List.take_succ_cons, List.getD_cons_succ]
        exact ih _ _ (by omega)

/-- An element read with getD inside the length belongs to the list. -/
lemma getD_mem_of_lt {γ : Type} (l : List γ) (i : Nat) (d : γ)
    (h : i < l.length) : l.getD i d ∈ l := by
  rw [List.getD_eq_getElem l d h]
  exact List.getElem_mem h

/-- Shape of the stacked mask array. -/
lemma mask_array_shape (images : List (Image × ℚ)) (idx h w c : Nat)
    (hsh : ∀ p ∈ images, Shaped3 p.1 h w c) :
    Shaped4 (mask_array images idx) images.length h w 1 := by
  unfold Shaped4 mask_array
  refine ⟨List.length_map _ _, ?_⟩
  intro x hx
  simp only [List.mem_map] at hx
  obtain ⟨p, hp, hpx⟩ := hx
  subst hpx
  obtain ⟨hl, hrow⟩ := hsh p hp
  refine ⟨by simpa using hl, ?_⟩
  intro y hy
  simp only [List.mem_map] at hy
  obtain ⟨row, hrmem, hrx⟩ := hy
  subst hrx
  obtain ⟨hwl, _⟩ := hrow row hrmem
  refine ⟨by simpa using hwl, ?_⟩
  intro z hz
  simp only [List.mem_map] at hz
  obtain ⟨px, _, hzx⟩ := hz
  subst hzx
  rfl

/-- Shape of the stacked band array. -/
lemma band_array_shape (images : List (Image × ℚ)) (nb h w c : Nat)
    (hsh : ∀ p ∈ images, Shaped3 p.1 h w c) (hnb : nb ≤ c) :
    Shaped4 (band_array images nb) images.length h w nb := by
  unfold Shaped4 band_array
  refine ⟨List.length_map _ _, ?_⟩
  intro x hx
  simp only [List.mem_map] at hx
  obtain ⟨p, hp, hpx⟩ := hx
  subst hpx
  obtain ⟨hl, hrow⟩ := hsh p hp
  refine ⟨by simpa using hl, ?_⟩
  intro y hy
  simp only [List.mem_map] at hy
  obtain ⟨row, hrmem, hrx⟩ := hy
  subst hrx
  obtain ⟨hwl, hpxlen⟩ := hrow row hrmem
  refine ⟨by simpa using hwl, ?_⟩
  intro z hz
  simp only [List.mem_map] at hz
  obtain ⟨px, hpxmem, hzx⟩ := hz
  subst hzx
  rw [List.length_map, List.length_take, hpxlen px hpxmem]
  omega

/-- Elementwise content of the stacked mask array: channel idx of the
decoded image of the same date, tested against zero. -/
lemma mask_array_px (images : List (Image × ℚ)) (idx h w c t i j : Nat)
    (hsh : ∀ p ∈ images, Shaped3 p.1 h w c)
    (ht : t < images.length) (hi : i < h) (hj : j < w) :
    px4 (mask_array images idx) t i j 0 =
      decide (px3 (images.getD t ([], 0)).1 i j idx ≠ 0) := by
  unfold px4 mask_array px3
  rw [getD_map_of_lt _ images t [] ([], 0) ht]
  have hp : images.getD t ([], 0) ∈ images := getD_mem_of_lt images t ([], 0) ht
  obtain ⟨hl, hrow⟩ := hsh _ hp
  rw [getD_map_of_lt _ _ i [] [] (by omega)]
  have hrmem : (images.getD t ([], 0)).1.getD i [] ∈ (images.getD t ([], 0)).1 :=
    getD_mem_of_lt _ i [] (by omega)
  obtain ⟨hwl, _⟩ := hrow _ hrmem
  rw [getD_map_of_lt _ _ j [] [] (by omega)]
  rfl

/-- Elementwise content of the stacked band array: the leading channel
k of the decoded image of the same date, scaled by that image's
normalization factor and rounded to 4 decimals. -/
lemma band_array_px (images : List (Image × ℚ)) (nb h w c t i j k : Nat)
    (hsh : ∀ p ∈ images, Shaped3 p.1 h w c)
    (ht : t < images.length) (hi : i < h) (hj : j < w) (hk : k < nb)
    (hnb : nb ≤ c) :
    px4 (band_array images nb) t i j k =
      np_round4 ((px3 (images.getD t ([], 0)).1 i j k : ℚ) *
        (images.getD t ([], 0)).2) := by
  have hp : images.getD t ([], 0) ∈ images := getD_mem_of_lt images t ([], 0) ht
  obtain ⟨hl, hrow⟩ := hsh _ hp
  have hrmem : (images.getD t ([], 0)).1.getD i [] ∈ (images.getD t ([], 0)).1 :=
    getD_mem_of_lt _ i [] (by omega)
  obtain ⟨hwl, hpxlen⟩ := hrow _ hrmem
  have hpxmem : ((images.getD t ([], 0)).1.getD i []).getD j [] ∈
      (images.getD t ([], 0)).1.getD i [] := getD_mem_of_lt _ j [] (by omega)
  have hclen := hpxlen _ hpxmem
  have e1 : (band_array images nb).getD t [] =
      (images.getD t ([], 0)).1.map (fun row => row.map
        (fun px => (px.take nb).map
          (fun v : Nat => np_round4 ((v : ℚ) * (images.getD t ([], 0)).2)))) :=
    getD_map_of_lt _ images t [] ([], 0) ht
  have e2 : ((band_array images nb).getD t []).getD i [] =
      ((images.getD t ([], 0)).1.getD i []).map
        (fun px => (px.take nb).map
          (fun v : Nat => np_round4 ((v : ℚ) * (images.getD t ([], 0)).2))) := by
    rw [e1]
    exact getD_map_of_lt _ _ i [] [] (by omega)
  have e3 : (((band_array images nb).getD t []).getD i []).getD j [] =
      ((((images.getD t ([], 0)).1.getD i []).getD j []).take nb).map
        (fun v : Nat => np_round4 ((v : ℚ) * (images.getD t ([], 0)).2)) := by
    rw [e2]
    exact getD_map_of_lt _ _ j [] [] (by omega)
  unfold px4 px3
  rw [e3]
  rw [getD_map_of_lt _ _ k _ 0 (by rw [List.length_take]; omega)]
  rw [getD_take_of_lt _ nb k 0 hk]

/-- Claim C8: on a successful execution with conforming decoded images,
every declared additional-data (mask) band is stored under its feature
key as the boolean cast of its fixed channel (its index in the all-bands
ordering) with shape (numDates, height, width, 1); and when primary
bands are declared, the bands feature holds the leading channel slice
scaled by each image's normalization factor and rounded to 4 decimals,
with shape (numDates, height, width, numBands). -/
theorem response_assembly
    (cfg : Config) (eop : Option EOPatch) (bbox : BBoxT) (ti : TimeInterval)
    (wfs : List DateTime) (downloads : List (Image × Option (Option ℚ)))
    (dates : List DateTime) (sx sy : Int) (h w c : Nat) (ft fn : String)
    (hsz : size_xy cfg bbox = .ok (sx, sy))
    (hdates : get_dates wfs cfg.time_difference ti = .ok dates)
    (hlen : downloads.length = dates.length)
    (hsh : ∀ p ∈ decoded downloads, Shaped3 p.1 h w c)
    (hmem : (ft, fn) ∈ cfg.additional_data)
    (_hidx : List.indexOf fn (all_bands cfg) < c)
    (hnb : cfg.bands.length ≤ c)
    (hnoshadow : ∀ bf, cfg.bands_feature = some bf → bf ≠ (ft, fn)) :
    ∃ patch, (execute cfg eop bbox ti wfs downloads).2 = .ok patch ∧
      feature_lookup patch.features (ft, fn) =
        some (.mask (mask_array (decoded downloads)
          (List.indexOf fn (all_bands cfg)))) ∧
      Shaped4 (mask_array (decoded downloads)
        (List.indexOf fn (all_bands cfg))) dates.length h w 1 ∧
      (∀ t2 i j, t2 < dates.length → i < h → j < w →
        px4 (mask_array (decoded downloads)
            (List.indexOf fn (all_bands cfg))) t2 i j 0 =
          decide (px3 ((decoded downloads).getD t2 ([], 0)).1 i j
            (List.indexOf fn (all_bands cfg)) ≠ 0)) ∧
      (∀ bf, cfg.bands_feature = some bf → cfg.bands ≠ [] →
        feature_lookup patch.features bf =
          some (.numeric (band_array (decoded downloads) cfg.bands.length)) ∧
        Shaped4 (band_array (decoded downloads) cfg.bands.length)
          dates.length h w cfg.bands.length ∧
        (∀ t2 i j k, t2 < dates.length → i < h → j < w →
            k < cfg.bands.length →
          px4 (band_array (decoded downloads) cfg.bands.length) t2 i j k =
            np_round4 ((px3 ((decoded downloads).getD t2 ([], 0)).1 i j k : ℚ) *
              ((decoded downloads).getD t2 ([], 0)).2))) := by
  have hdlen : (decoded downloads).length = dates.length := by
    unfold decoded
    rw [List.length_map]
    exact hlen
  obtain ⟨patch, hok, hts, hfeat⟩ :=
    execute_ok_form cfg eop bbox ti wfs downloads dates sx sy hsz hdates
  have hmask_lookup : feature_lookup patch.features (ft, fn) =
      some (.mask (mask_array (decoded downloads)
        (List.indexOf fn (all_bands cfg)))) := by
    rw [hfeat]
    have hblock : feature_lookup
        ((cfg.additional_data.map
          (fun f => (f, FeatValue.mask (mask_array (decoded downloads)
            (List.indexOf f.2 (all_bands cfg)))))).reverse ++
          (eop.getD empty_eopatch).features) (ft, fn) =
        some (FeatValue.mask (mask_array (decoded downloads)
          (List.indexOf fn (all_bands cfg)))) := by
      refine feature_lookup_block _ _ (ft, fn)
        (fun f => FeatValue.mask (mask_array (decoded downloads)
          (List.indexOf f.2 (all_bands cfg)))) ?_ ?_
      · intro kv hkv
        rw [List.mem_reverse, List.mem_map] at hkv
        obtain ⟨f, _, hf⟩ := hkv
        subst hf
        rfl
      · rw [List.map_reverse, List.mem_reverse, List.mem_map]
        exact ⟨((ft, fn), FeatValue.mask (mask_array (decoded downloads)
          (List.indexOf fn (all_bands cfg)))),
          List.mem_map.mpr ⟨(ft, fn), hmem, rfl⟩, rfl⟩
    rcases hb : cfg.bands with _ | ⟨b, bs⟩ <;>
      rcases hbf : cfg.bands_feature with _ | bf
    · simpa using hblock
    · simpa using hblock
    · simpa using hblock
    · have hne : bf ≠ (ft, fn) := hnoshadow bf hbf
      simp only [List.singleton_append]
      rw [feature_lookup_cons_ne _ _ _ (by simpa using hne)]
      exact hblock
  refine ⟨patch, hok, hmask_lookup, ?_, ?_, ?_⟩
  · rw [← hdlen]
    exact mask_array_shape (decoded downloads) _ h w c hsh
  · intro t2 i j ht2 hi hj
    exact mask_array_px (decoded downloads) _ h w c t2 i j hsh
      (by omega) hi hj
  · intro bf hbf hbne
    rcases hb : cfg.bands with _ | ⟨b, bs⟩
    · exact absurd hb hbne
    · refine ⟨?_, ?_, ?_⟩
      · rw [hfeat]
        simp only [hb, hbf, List.singleton_append]
        unfold feature_lookup
        rw [if_pos rfl]
      · rw [← hdlen]
        exact band_array_shape (decoded downloads) _ h w c hsh (hb ▸ hnb)
      · intro t2 i j k ht2 hi hj hk
        exact band_array_px (decoded downloads) (b :: bs).length h w c t2 i j k
          hsh (by omega) hi hj hk (hb ▸ hnb)

/-- Witness for claim C8 on a concrete two-date execution. -/
theorem response_assembly_witness :
    ∃ patch, (execute cfg0 none bbox0 ti0 [dt0, dt20] downloads0).2 =
        .ok patch ∧
      feature_lookup patch.features ("mask", "CLM") =
        some (.mask (mask_array (decoded downloads0)
          (List.indexOf "CLM" (all_bands cfg0)))) ∧
      Shaped4 (mask_array (decoded downloads0)
        (List.indexOf "CLM" (all_bands cfg0))) [dt0, dt20].length 1 1 1 ∧
      (∀ t2 i j, t2 < [dt0, dt20].length → i < 1 → j < 1 →
        px4 (mask_array (decoded downloads0)
            (List.indexOf "CLM" (all_bands cfg0))) t2 i j 0 =
          decide (px3 ((decoded downloads0).getD t2 ([], 0)).1 i j
            (List.indexOf "CLM" (all_bands cfg0)) ≠ 0)) ∧
      (∀ bf, cfg0.bands_feature = some bf → cfg0.bands ≠ [] →
        feature_lookup patch.features bf =
          some (.numeric (band_array (decoded downloads0) cfg0.bands.length)) ∧
        Shaped4 (band_array (decoded downloads0) cfg0.bands.length)
          [dt0, dt20].length 1 1 cfg0.bands.length ∧
        (∀ t2 i j k, t2 < [dt0, dt20].length → i < 1 → j < 1 →
            k < cfg0.bands.length →
          px4 (band_array (decoded downloads0) cfg0.bands.length) t2 i j k =
            np_round4 ((px3 ((decoded downloads0).getD t2 ([], 0)).1 i j k : ℚ) *
              ((decoded downloads0).getD t2 ([], 0)).2))) :=
  response_assembly cfg0 none bbox0 ti0 [dt0, dt20] downloads0 [dt0, dt20]
    1 1 1 1 3 "mask" "CLM" (by decide) (by decide) (by decide) (by decide)
    (by decide) (by decide) (by decide)
    (fun bf hbf => by
      have h2 : some (("data", "BANDS") : Feature) = some bf := hbf
      injection h2 with h3
      rw [← h3]
      decide)

/-- A successful get_dates means the candidate list was nonempty. -/
lemma get_dates_ok_ne_nil (wfs : List DateTime) (t : Int) (ti : TimeInterval)
    (dates : List DateTime) (h : get_dates wfs t ti = .ok dates) :
    wfs ≠ [] := by
  intro h0
  rw [h0] at h
  exact Except.noConfusion h

/-- The kept date list of a duplicate-free candidate set is strictly
ascending. -/
lemma get_dates_ok_chain (wfs : List DateTime) (t : Int) (ti : TimeInterval)
    (dates : List DateTime) (hnd : (wfs.map to_secs).Nodup)
    (h : get_dates wfs t ti = .ok dates) :
    List.Chain' (fun a b => to_secs a < to_secs b) dates := by
  have hne := get_dates_ok_ne_nil wfs t ti dates h
  rw [get_dates_ok_form wfs t ti hne] at h
  obtain ⟨d0, s, hs⟩ :=
    List.exists_cons_of_ne_nil (insertionSort_ne_nil wfs hne)
  rw [hs] at h
  simp only [List.headI_cons, List.tail_cons] at h
  have hch : List.Chain' (fun a b => to_secs a < to_secs b) (d0 :: s) := by
    have := sorted_strict_chain wfs hnd
    rwa [hs] at this
  have hout := kept_tail_chain t s d0 hch
  have hd : dates = d0 :: kept_tail t d0 s := by
    injection h with h2
    exact h2.symm
  rw [hd]
  exact hout.imp (fun _ _ hab => hab.1)

/-- Claim C9: after every successful execution into a fresh container,
the timestamps are exactly the kept dates, strictly ascending, and
every populated band array has the timestamp count as its first
(date-axis) dimension. -/
theorem timestamps_match_arrays
    (cfg : Config) (bbox : BBoxT) (ti : TimeInterval) (wfs : List DateTime)
    (downloads : List (Image × Option (Option ℚ)))
    (dates : List DateTime) (sx sy : Int)
    (hsz : size_xy cfg bbox = .ok (sx, sy))
    (hdates : get_dates wfs cfg.time_difference ti = .ok dates)
    (hlen : downloads.length = dates.length)
    (hnd : (wfs.map to_secs).Nodup) :
    ∃ patch, (execute cfg none bbox ti wfs downloads).2 = .ok patch ∧
      patch.timestamp = dates ∧
      List.Chain' (fun a b => to_secs a < to_secs b) patch.timestamp ∧
      ∀ kv ∈ patch.features, dim0 kv.2 = patch.timestamp.length := by
  have hdlen : (decoded downloads).length = dates.length := by
    unfold decoded
    rw [List.length_map]
    exact hlen
  obtain ⟨patch, hok, hts, hfeat⟩ :=
    execute_ok_form cfg none bbox ti wfs downloads dates sx sy hsz hdates
  refine ⟨patch, hok, hts, ?_, ?_⟩
  · rw [hts]
    exact get_dates_ok_chain wfs cfg.time_difference ti dates hnd hdates
  · intro kv hkv
    rw [hfeat] at hkv
    rw [hts]
    rcases List.mem_append.mp hkv with hkv2 | hkv2
    · rcases hb : cfg.bands with _ | ⟨b, bs⟩ <;>
        rcases hbf : cfg.bands_feature with _ | bf <;>
        rw [hb, hbf] at hkv2 <;> simp only [] at hkv2
      · cases hkv2
      · cases hkv2
      · cases hkv2
      · rcases List.mem_singleton.mp hkv2 with hkv3
        rw [hkv3]
        show (band_array (decoded downloads) (b :: bs).length).length =
          dates.length
        unfold band_array
        rw [List.length_map]
        exact hdlen
    · rw [show (Option.getD (none : Option EOPatch) empty_eopatch).features
          = [] from rfl, List.append_nil, List.mem_reverse,
        List.mem_map] at hkv2
      obtain ⟨f, _, hf⟩ := hkv2
      rw [← hf]
      show (mask_array (decoded downloads)
        (List.indexOf f.2 (all_bands cfg))).length = dates.length
      unfold mask_array
      rw [List.length_map]
      exact hdlen

/-- Witness for claim C9. -/
theorem timestamps_match_arrays_witness :
    ∃ patch, (execute cfg0 none bbox0 ti0 [dt0, dt20] downloads0).2 =
        .ok patch ∧
      patch.timestamp = [dt0, dt20] ∧
      List.Chain' (fun a b => to_secs a < to_secs b) patch.timestamp ∧
      ∀ kv ∈ patch.features, dim0 kv.2 = patch.timestamp.length :=
  timestamps_match_arrays cfg0 bbox0 ti0 [dt0, dt20] downloads0 [dt0, dt20]
    1 1 (by decide) (by decide) (by decide) (by decide)

/-- Claim C10: without a bands feature the configured band list is
empty no matter what band names were passed, so a successful execution
writes only mask arrays; and with a bands feature but a falsy bands
argument (None or the empty list) the full band list of the data source
is requested. -/
theorem bands_ignored_without_feature
    (ds : DataSource) (size : Option (Int × Int)) (resolution : Option ℚ)
    (bands : Option (List String)) (additional : Option (List Feature))
    (maxcc : ℚ) (t : Int) (bbox : BBoxT) (ti : TimeInterval)
    (wfs : List DateTime) (downloads : List (Image × Option (Option ℚ)))
    (dates : List DateTime) (sx sy : Int)
    (hsz : size_xy (mk_task ds size resolution none bands additional maxcc t)
      bbox = .ok (sx, sy))
    (hdates : get_dates wfs t ti = .ok dates) :
    (mk_task ds size resolution none bands additional maxcc t).bands = [] ∧
    (∃ patch,
      (execute (mk_task ds size resolution none bands additional maxcc t)
        none bbox ti wfs downloads).2 = .ok patch ∧
      ∀ kv ∈ patch.features, ∃ a, kv.2 = FeatValue.mask a) ∧
    (∀ bf : Feature,
      (mk_task ds size resolution (some bf) none additional maxcc t).bands =
        ds.source_bands ∧
      (mk_task ds size resolution (some bf) (some []) additional maxcc
        t).bands = ds.source_bands) := by
  have hb : (mk_task ds size resolution none bands additional maxcc t).bands
      = [] := rfl
  refine ⟨hb, ?_, fun bf => ⟨rfl, rfl⟩⟩
  obtain ⟨patch, hok, hts, hfeat⟩ :=
    execute_ok_form _ none bbox ti wfs downloads dates sx sy hsz hdates
  refine ⟨patch, hok, ?_⟩
  intro kv hkv
  rw [hfeat] at hkv
  simp only [hb, List.nil_append] at hkv
  rw [show (Option.getD (none : Option EOPatch) empty_eopatch).features
      = [] from rfl, List.append_nil, List.mem_reverse, List.mem_map] at hkv
  obtain ⟨f, _, hf⟩ := hkv
  exact ⟨_, by rw [← hf]⟩

/-- Witness for claim C10. -/
theorem bands_ignored_without_feature_witness :
    (mk_task ds0 (some (1, 1)) none none (some ["B04"])
      (some [("mask", "CLM")]) (4 / 10) 15).bands = [] ∧
    (∃ patch,
      (execute (mk_task ds0 (some (1, 1)) none none (some ["B04"])
        (some [("mask", "CLM")]) (4 / 10) 15)
        none bbox0 ti0 [dt0, dt20] downloads0).2 = .ok patch ∧
      ∀ kv ∈ patch.features, ∃ a, kv.2 = FeatValue.mask a) ∧
    (∀ bf : Feature,
      (mk_task ds0 (some (1, 1)) none (some bf) none
        (some [("mask", "CLM")]) (4 / 10) 15).bands = ds0.source_bands ∧
      (mk_task ds0 (some (1, 1)) none (some bf) (some [])
        (some [("mask", "CLM")]) (4 / 10) 15).bands = ds0.source_bands) :=
  bands_ignored_without_feature ds0 (some (1, 1)) none (some ["B04"])
    (some [("mask", "CLM")]) (4 / 10) 15 bbox0 ti0 [dt0, dt20] downloads0
    [dt0, dt20] 1 1 (by decide) (by decide)
